import Mathlib

set_option maxRecDepth 100000

/-!
Verification of the Semantic Scholar fetch-and-export utility
(`src/mydataset/semanticscholar.py`).

The Python module has two functions:

* `search_semantic_scholar(query, max_papers, batch_size)` paginates over the
  Semantic Scholar search API (`for offset in range(0, max_papers,
  batch_size)`), normalises each returned entry into a paper record, and stops
  on cap / exhaustion / error.
* `save_papers_to_file(papers, folder_path, filename)` writes the records to a
  CSV file (Python `csv.DictWriter`, excel dialect: `,` delimiter, `"` quote
  char doubled, minimal quoting, `\r\n` line terminator).

This file gives a shallow embedding of both functions and proves the spec's
testable properties about them.  Network and filesystem effects are made
explicit: the API is a list of per-page responses, the filesystem is an oracle
saying which operations fail.
-/

namespace SemScholar

/-- An author object of the API response; `author["name"]` is accessed
unconditionally by the code, so the field is mandatory. -/
structure Author where
  name : String
deriving DecidableEq

/-- One element of an entry's `references` array.  `ref.get(k, default)`
is modelled by `Option`: `none` means the key is absent. -/
structure Ref where
  title : Option String
  authors : Option (List Author)
  year : Option Int
deriving DecidableEq

/-- One element of the response's `data` array. -/
structure Entry where
  title : Option String
  authors : Option (List Author)
  abstract : Option String
  year : Option Int
  url : Option String
  references : Option (List Ref)
deriving DecidableEq

/-- A Python value that is either a string or an integer: `entry.get("year",
"Unknown")` yields the year int when present and the string otherwise. -/
inductive PyVal where
  | pstr (s : String)
  | pint (n : Int)
deriving DecidableEq

/-- Python `str()` applied to a `PyVal` (as the csv writer does). -/
def PyVal.render : PyVal → String
  | .pstr s => s
  | .pint n => Int.repr n

/-- The normalised paper dictionary built by the fetch loop. -/
structure PaperRecord where
  title : String
  summary : String
  authors : List String
  published : PyVal
  pdf_url : String
  references : String
deriving DecidableEq

/-- Python `sep.join(xs)`. -/
def strJoin (sep : String) : List String → String
  | [] => ""
  | [s] => s
  | s :: rest => s ++ sep ++ strJoin sep rest

/-- `ref.get("year", "Unknown")` rendered inside the reference f-string. -/
def refYearStr (r : Ref) : String :=
  match r.year with
  | some n => Int.repr n
  | none => "Unknown"

/-- `", ".join(author["name"] for author in ref.get("authors", []))`. -/
def refAuthorsStr (r : Ref) : String :=
  strJoin ", " ((r.authors.getD []).map Author.name)

/-- `f"[{idx}] {ref_authors}, \"{ref_title},\" {ref_year}."` -/
def formatRef (idx : Nat) (r : Ref) : String :=
  "[" ++ Nat.repr idx ++ "] " ++ refAuthorsStr r ++ ", \"" ++
    (r.title.getD "No title") ++ ",\" " ++ refYearStr r ++ "."

/-- The `reference_list` accumulated by `for idx, ref in enumerate(references,
start=1)`, with `i` the 1-based index of the first remaining element. -/
def refFragments (i : Nat) : List Ref → List String
  | [] => []
  | r :: rs => formatRef i r :: refFragments (i + 1) rs

/-- `reference_list` for a full `references` array. -/
def referenceList (refs : List Ref) : List String :=
  refFragments 1 refs

/-- Lines 43-65: build one paper dictionary from one API entry. -/
def mkPaper (e : Entry) : PaperRecord :=
  { title := e.title.getD "No title"
    summary := e.abstract.getD "No abstract available"
    authors := (e.authors.getD []).map Author.name
    published :=
      match e.year with
      | some n => PyVal.pint n
      | none => PyVal.pstr "Unknown"
    pdf_url := e.url.getD "No URL available"
    references :=
      match referenceList (e.references.getD []) with
      | [] => "No references available"
      | f :: fs => strJoin " " (f :: fs) }

/-- The observable outcome of one page request.  `ok es` is a 200 response
whose JSON body has a `"data"` key holding the list `es`; `noData` is a 200
JSON body without a `"data"` key; the other three are the exception classes
caught by the loop (`raise_for_status`, `RequestException`, JSON decode). -/
inductive ApiResponse where
  | ok (es : List Entry)
  | noData
  | httpError (code : Nat)
  | transportError
  | jsonError
deriving DecidableEq

/-- Responses on which the `except` handlers fire. -/
def ApiResponse.isFailure : ApiResponse → Bool
  | .httpError _ => true
  | .transportError => true
  | .jsonError => true
  | _ => false

/-- One HTTP GET issued by the loop, with the `offset` and `limit` query
parameters and the value of `len(papers)` at the moment of the request. -/
structure PageRequest where
  query : String
  offset : Nat
  limit : Int
  accBefore : Nat
deriving DecidableEq

/-- Lines 42-70: `for entry in data["data"]` — append the normalised record,
then `break` as soon as `len(papers) >= max_papers`. -/
def processEntries (maxP : Nat) : List Entry → List PaperRecord → List PaperRecord
  | [], acc => acc
  | e :: es, acc =>
    let acc2 := acc ++ [mkPaper e]
    if maxP ≤ acc2.length then acc2 else processEntries maxP es acc2

/-- The body of `for offset in range(0, max_papers, batch_size)`, lines 19-98.
The remaining offsets and the remaining per-page responses are consumed in
lockstep; an exhausted response list stands for a request that never gets an
answer (a transport failure).  The first output component is the trace of
issued page requests, the second the accumulated `papers` list. -/
def fetchLoop (q : String) (maxP b : Nat) :
    List Nat → List ApiResponse → List PaperRecord →
      List PageRequest × List PaperRecord
  | [], _, acc => ([], acc)
  | o :: offs, resps, acc =>
    let req : PageRequest :=
      ⟨q, o, min (b : Int) ((maxP : Int) - (acc.length : Int)), acc.length⟩
    match resps with
    | [] => ([req], acc)
    | ApiResponse.ok [] :: _ => ([req], acc)
    | ApiResponse.ok (e :: es) :: rest =>
      let acc2 := processEntries maxP (e :: es) acc
      if (e :: es).length < b then ([req], acc2)
      else
        let next := fetchLoop q maxP b offs rest acc2
        (req :: next.1, next.2)
    | ApiResponse.noData :: _ => ([req], acc)
    | ApiResponse.httpError _ :: _ => ([req], acc)
    | ApiResponse.transportError :: _ => ([req], acc)
    | ApiResponse.jsonError :: _ => ([req], acc)

/-- `range(i * b, ?, b)` with `n` elements left: the offsets
`i*b, (i+1)*b, ...`. -/
def offsetsFrom (b : Nat) : Nat → Nat → List Nat
  | _, 0 => []
  | i, n + 1 => i * b :: offsetsFrom b (i + 1) n

/-- `range(0, maxP, b)` for `b > 0`: `ceil(maxP / b)` offsets. -/
def pyRange (maxP b : Nat) : List Nat :=
  offsetsFrom b 0 ((maxP + b - 1) / b)

/-- Lines 6-100: the full fetch.  Returns the trace of issued page requests
together with the returned `papers` list. -/
def search_semantic_scholar (q : String) (maxP b : Nat)
    (resps : List ApiResponse) : List PageRequest × List PaperRecord :=
  fetchLoop q maxP b (pyRange maxP b) resps []

/-! ## The CSV exporter

`csv.DictWriter` on a file opened with `newline=""` uses the excel dialect:
delimiter `,`, quote char `"` (doubled inside quoted cells), minimal quoting
(a cell is quoted iff it contains the delimiter, the quote char, or a line
terminator char), line terminator `"\r\n"`.  Cell values pass through
Python `str()`.  The file content is modelled as a `List Char`. -/

/-- Chars that force a cell to be quoted under minimal quoting. -/
def isCsvSpecial (c : Char) : Bool :=
  c == ',' || c == '"' || c == '\r' || c == '\n'

/-- Double every quote char, as the writer does inside a quoted cell. -/
def escapeQuotes : List Char → List Char
  | [] => []
  | c :: rest =>
    if c = '"' then '"' :: '"' :: escapeQuotes rest
    else c :: escapeQuotes rest

/-- Encode one cell under minimal quoting. -/
def encodeCell (d : List Char) : List Char :=
  if d.any isCsvSpecial then '"' :: (escapeQuotes d ++ ['"']) else d

/-- Encoded cells joined with the `,` delimiter. -/
def joinEnc : List (List Char) → List Char
  | [] => []
  | [c] => encodeCell c
  | c :: cs => encodeCell c ++ ',' :: joinEnc cs

/-- One CSV record: joined cells plus the `"\r\n"` terminator. -/
def encodeRow (cells : List (List Char)) : List Char :=
  joinEnc cells ++ ['\r', '\n']

/-- A whole CSV file: the records in order. -/
def encodeRows : List (List (List Char)) → List Char
  | [] => []
  | r :: rs => encodeRow r ++ encodeRows rs

/-- Line 115: `headers = ["Title", "Authors", "Published", "Summary",
"PDF URL", "References"]`. -/
def headerCells : List (List Char) :=
  ["Title".data, "Authors".data, "Published".data, "Summary".data,
    "PDF URL".data, "References".data]

/-- Lines 122-129: the cells of one data row, in header order; `Authors` is
the author list joined with `", "`, `Published` goes through `str()`. -/
def recordCells (p : PaperRecord) : List (List Char) :=
  [p.title.data, (strJoin ", " p.authors).data, (PyVal.render p.published).data,
    p.summary.data, p.pdf_url.data, p.references.data]

/-- The full file written by `save_papers_to_file` on a success run. -/
def csvContent (papers : List PaperRecord) : List Char :=
  encodeRows (headerCells :: papers.map recordCells)

/-! ## A CSV reader

`parseCsv` models `csv.reader` (excel dialect) on the files the writer above
produces: a cell starting with `"` is read up to the closing quote with `""`
standing for one quote char; any other cell runs to the next `,` or line end;
rows are separated by `"\r\n"`.  The row and file readers carry fuel so that
every definition is structurally recursive (the fuel is always sufficient on
writer output, as proved below). -/

/-- Read the remainder of a quoted cell (the opening `"` already consumed);
`""` stands for one quote char, a lone `"` closes the cell.  The fuel bounds
the number of produced chars (one is spent per char or quote pair). -/
def parseQuotedFuel : Nat → List Char → List Char × List Char
  | 0, input => ([], input)
  | fuel + 1, input =>
    match input with
    | [] => ([], [])
    | c :: rest =>
      if c = '"' then
        if rest.head? = some '"' then
          let t := parseQuotedFuel fuel rest.tail
          ('"' :: t.1, t.2)
        else ([], rest)
      else
        let t := parseQuotedFuel fuel rest
        (c :: t.1, t.2)

/-- Read an unquoted cell: everything up to a `,`, `'\r'` or `'\n'`. -/
def parseUnquoted : List Char → List Char × List Char
  | [] => ([], [])
  | c :: rest =>
    if c = ',' ∨ c = '\r' ∨ c = '\n' then ([], c :: rest)
    else
      let t := parseUnquoted rest
      (c :: t.1, t.2)

/-- Read one cell starting at `input`. -/
def parseCellAt (input : List Char) : List Char × List Char :=
  match input with
  | [] => ([], [])
  | c :: rest =>
    if c = '"' then parseQuotedFuel rest.length rest
    else parseUnquoted (c :: rest)

/-- Read the cells of one record; the fuel bounds the number of cells.  A
`,` after a cell starts the next cell, a `"\r\n"` ends the record. -/
def parseRowFuel : Nat → List Char → List (List Char) × List Char
  | 0, input => ([], input)
  | fuel + 1, input =>
    let c := parseCellAt input
    if c.2.head? = some ',' then
      let t := parseRowFuel fuel c.2.tail
      (c.1 :: t.1, t.2)
    else if c.2.head? = some '\r' ∧ c.2.tail.head? = some '\n' then
      ([c.1], c.2.tail.tail)
    else ([c.1], c.2)

/-- Read all records; the fuel bounds the number of records. -/
def parseCsvFuel : Nat → List Char → List (List (List Char))
  | 0, _ => []
  | fuel + 1, input =>
    if input = [] then []
    else
      let r := parseRowFuel input.length input
      r.1 :: parseCsvFuel fuel r.2

/-- Read a CSV file (its length is always enough fuel). -/
def parseCsv (l : List Char) : List (List (List Char)) :=
  parseCsvFuel l.length l

/-! ## The `save_papers_to_file` effect model

Lines 102-134.  `os.makedirs` runs *outside* the `try` block; the `try`
covers `open` and all the `writerow` calls, and `except Exception` turns any
failure there into a printed message.  The filesystem is an oracle saying
which of the three operations fail. -/

/-- An exception escaping `save_papers_to_file` to its caller. -/
inductive PyExc where
  | osError
deriving DecidableEq

/-- Which filesystem operations fail during one call. -/
structure FsEnv where
  makedirsFails : Bool
  openFails : Bool
  writeFails : Bool
deriving DecidableEq

/-- What the caller observes from a `save_papers_to_file` call that did not
raise: whether the folder was created, the file content (if the write
completed), and whether the final `print` reported success. -/
structure SaveOutcome where
  dirCreated : Bool
  fileContent : Option (List Char)
  reportedSuccess : Bool
deriving DecidableEq

/-- Lines 102-134: `save_papers_to_file(papers, folder_path, filename)`.
`Except.error` means an exception propagated to the caller. -/
def save_papers_to_file (papers : List PaperRecord)
    (folder_path filename : String) (env : FsEnv) : Except PyExc SaveOutcome :=
  if env.makedirsFails then Except.error PyExc.osError
  else if env.openFails || env.writeFails then
    Except.ok { dirCreated := true, fileContent := none, reportedSuccess := false }
  else
    Except.ok { dirCreated := true, fileContent := some (csvContent papers),
                reportedSuccess := true }

/-! ## Concrete fixtures used by witnesses and counterexamples -/

/-- A well-formed API entry: every field present. -/
def wfEntry : Entry :=
  { title := some "T", authors := some [⟨"A"⟩], abstract := some "S",
    year := some 5, url := some "U", references := some [] }

/-- A stub page of exactly ten well-formed entries. -/
def tenEntries : List Entry := List.replicate 10 wfEntry

/-- An entry whose single reference has a semicolon inside its title. -/
def badRefEntry : Entry :=
  { title := some "T", authors := some [], abstract := some "A",
    year := some 1, url := some "U",
    references := some [{ title := some "a;b", authors := some [], year := some 2 }] }

/-- A filesystem oracle on which every operation succeeds. -/
def fsOk : FsEnv := { makedirsFails := false, openFails := false, writeFails := false }

/-! ## C1: the returned list never exceeds `max_papers` -/

theorem processEntries_length_le (maxP : Nat) :
    ∀ (es : List Entry) (acc : List PaperRecord), acc.length < maxP →
      (processEntries maxP es acc).length ≤ maxP := by
  intro es
  induction es with
  | nil =>
    intro acc h
    simpa [processEntries] using Nat.le_of_lt h
  | cons e es ih =>
    intro acc h
    simp only [processEntries]
    split
    · simp only [List.length_append, List.length_cons, List.length_nil]
      omega
    · next h2 => exact ih _ (Nat.lt_of_not_le h2)

theorem processEntries_length_le_add (maxP : Nat) :
    ∀ (es : List Entry) (acc : List PaperRecord),
      (processEntries maxP es acc).length ≤ acc.length + es.length := by
  intro es
  induction es with
  | nil => intro acc; simp [processEntries]
  | cons e es ih =>
    intro acc
    simp only [processEntries]
    split
    · simp only [List.length_append, List.length_cons, List.length_nil]
      omega
    · have h := ih (acc ++ [mkPaper e])
      simp only [List.length_append, List.length_cons, List.length_nil] at h ⊢
      omega

theorem fetchLoop_length_le (q : String) (maxP b : Nat) :
    ∀ (n i : Nat) (resps : List ApiResponse) (acc : List PaperRecord),
      (∀ es, ApiResponse.ok es ∈ resps → es.length ≤ b) →
      acc.length ≤ i * b →
      acc.length ≤ maxP →
      (∀ j, j < n → (i + j) * b < maxP) →
      ((fetchLoop q maxP b (offsetsFrom b i n) resps acc).2).length ≤ maxP := by
  intro n
  induction n with
  | zero =>
    intro i resps acc _ _ h3 _
    simpa [offsetsFrom, fetchLoop] using h3
  | succ n ih =>
    intro i resps acc hok h2 h3 h4
    have hoff : i * b < maxP := by simpa using h4 0 (Nat.succ_pos n)
    have hlt : acc.length < maxP := Nat.lt_of_le_of_lt h2 hoff
    simp only [offsetsFrom]
    cases resps with
    | nil => simpa [fetchLoop] using h3
    | cons r rest =>
      cases r with
      | ok es0 =>
        cases es0 with
        | nil => simpa [fetchLoop] using h3
        | cons e es =>
          have hlen : (e :: es).length ≤ b := hok _ (List.mem_cons_self _ _)
          have hacc2 : (processEntries maxP (e :: es) acc).length ≤ maxP :=
            processEntries_length_le maxP _ _ hlt
          simp only [fetchLoop]
          split
          · exact hacc2
          · have hadd := processEntries_length_le_add maxP (e :: es) acc
            have hok2 : ∀ es2, ApiResponse.ok es2 ∈ rest → es2.length ≤ b :=
              fun es2 hm => hok es2 (List.mem_cons_of_mem _ hm)
            have hbound : (processEntries maxP (e :: es) acc).length ≤ (i + 1) * b := by
              have hs : (i + 1) * b = i * b + b := Nat.succ_mul i b
              omega
            have h4s : ∀ j, j < n → (i + 1 + j) * b < maxP := by
              intro j hj
              have hh := h4 (j + 1) (by omega)
              have he : i + (j + 1) = i + 1 + j := by omega
              rwa [he] at hh
            simpa using ih (i + 1) rest _ hok2 hbound hacc2 h4s
      | noData => simpa [fetchLoop] using h3
      | httpError c => simpa [fetchLoop] using h3
      | transportError => simpa [fetchLoop] using h3
      | jsonError => simpa [fetchLoop] using h3

theorem mul_lt_of_lt_ceilDiv (maxP b : Nat) (hb : 0 < b) :
    ∀ j, j < (maxP + b - 1) / b → j * b < maxP := by
  intro j hj
  have h1 : j + 1 ≤ (maxP + b - 1) / b := hj
  have h2 : (j + 1) * b ≤ maxP + b - 1 := (Nat.le_div_iff_mul_le hb).mp h1
  have h3 : (j + 1) * b = j * b + b := Nat.succ_mul j b
  omega

/-- C1 (counterexample): with `max_papers = 3`, `batch_size = 2` and an API
that ignores the requested `limit` (first page carries three entries, second
page one more), the code returns four records — more than `max_papers`.  The
in-batch stop appends one record before checking the cap, and the first page,
not being shorter than `batch_size`, does not end the pagination. -/
theorem search_exceeds_max_cex :
    ¬ (((search_semantic_scholar "q" 3 2
        [ApiResponse.ok [wfEntry, wfEntry, wfEntry],
          ApiResponse.ok [wfEntry]]).2).length ≤ 3) := by
  decide

/-- C1 (amended): for every query, every `max_papers`, every `batch_size ≥ 1`
and every sequence of page responses in which each page's `data` array holds
at most `batch_size` entries (as it does whenever the API honours the
requested `limit`), the list returned by `search_semantic_scholar` has length
at most `max_papers`. -/
theorem search_length_le_max (q : String) (maxP b : Nat) (hb : 0 < b)
    (resps : List ApiResponse)
    (hok : ∀ es, ApiResponse.ok es ∈ resps → es.length ≤ b) :
    ((search_semantic_scholar q maxP b resps).2).length ≤ maxP := by
  have hj : ∀ j, j < (maxP + b - 1) / b → (0 + j) * b < maxP := by
    intro j hjj
    simpa using mul_lt_of_lt_ceilDiv maxP b hb j hjj
  simpa [search_semantic_scholar, pyRange] using
    fetchLoop_length_le q maxP b ((maxP + b - 1) / b) 0 resps []
      hok (by simp) (by simp) hj

theorem search_length_le_max_witness :
    ((search_semantic_scholar "q" 10 10 [ApiResponse.ok tenEntries]).2).length ≤ 10 :=
  search_length_le_max "q" 10 10 (by decide) [ApiResponse.ok tenEntries]
    (by intro es h; simp at h; subst h; decide)

/-! ## C2: failures end pagination with the partial result, no exception -/

/-- C2: when the response of a reached page is a failure — non-2xx HTTP
status, transport error, or malformed (non-JSON) body — the loop issues that
page's request and nothing further, and returns exactly the records
accumulated from the earlier pages.  No exception reaches the caller: the
embedded function is total and yields the accumulated list (the `except`
handlers at lines 85-98 all `break`).  With the 500 on the very first page
the accumulator is still `[]`, so the returned list is empty. -/
theorem fetchLoop_failure_stops (q : String) (maxP b o : Nat) (offs : List Nat)
    (r : ApiResponse) (rest : List ApiResponse) (acc : List PaperRecord)
    (hr : r.isFailure = true) :
    fetchLoop q maxP b (o :: offs) (r :: rest) acc =
      ([⟨q, o, min (b : Int) ((maxP : Int) - (acc.length : Int)), acc.length⟩],
        acc) := by
  cases r <;> simp_all [fetchLoop, ApiResponse.isFailure]

theorem fetchLoop_failure_stops_witness :
    search_semantic_scholar "q" 10 10 [ApiResponse.httpError 500] =
      ([⟨"q", 0, 10, 0⟩], []) := by
  have e1 : pyRange 10 10 = [0] := by decide
  have h := fetchLoop_failure_stops "q" 10 10 0 [] (ApiResponse.httpError 500)
    [] [] rfl
  simp only [search_semantic_scholar]
  rw [e1, h]
  rfl

/-! ## C3: a page shorter than `batch_size` is the last page requested -/

theorem fetchLoop_full_pages (q : String) (maxP b : Nat) :
    ∀ (offs : List Nat) (resps : List ApiResponse) (acc : List PaperRecord)
      (k : Nat) (es : List Entry),
      k + 1 < ((fetchLoop q maxP b offs resps acc).1).length →
      resps.get? k = some (ApiResponse.ok es) →
      b ≤ es.length := by
  intro offs
  induction offs with
  | nil =>
    intro resps acc k es hk _
    simp [fetchLoop] at hk
  | cons o offs ih =>
    intro resps acc k es hk hes
    cases resps with
    | nil => simp [fetchLoop] at hk
    | cons r rest =>
      cases r with
      | ok es0 =>
        cases es0 with
        | nil =>
          simp [fetchLoop] at hk
        | cons e es1 =>
          simp only [fetchLoop] at hk
          by_cases hb2 : (e :: es1).length < b
          · rw [if_pos hb2] at hk
            simp at hk
          · rw [if_neg hb2] at hk
            simp only [List.length_cons] at hk
            cases k with
            | zero =>
              simp only [List.get?] at hes
              have : ApiResponse.ok (e :: es1) = ApiResponse.ok es :=
                Option.some.inj hes
              have he : e :: es1 = es := by injection this
              rw [← he]
              exact Nat.le_of_not_lt hb2
            | succ k2 =>
              refine ih rest (processEntries maxP (e :: es1) acc) k2 es
                (by omega) ?_
              simpa [List.get?] using hes
      | noData => simp [fetchLoop] at hk
      | httpError c => simp [fetchLoop] at hk
      | transportError => simp [fetchLoop] at hk
      | jsonError => simp [fetchLoop] at hk

/-- C3: if the run issued a request after page `k` (the trace is longer than
`k + 1`), then page `k`'s response was a `data` array of at least
`batch_size` entries; contrapositively, after any page whose `data` array is
shorter than `batch_size`, no further page request is ever issued (lines
77-80 `break`). -/
theorem search_stops_after_short_page (q : String) (maxP b : Nat)
    (resps : List ApiResponse) (k : Nat) (es : List Entry)
    (hk : k + 1 < ((search_semantic_scholar q maxP b resps).1).length)
    (hes : resps.get? k = some (ApiResponse.ok es)) :
    b ≤ es.length :=
  fetchLoop_full_pages q maxP b (pyRange maxP b) resps [] k es hk hes

theorem search_stops_after_short_page_witness :
    (2 : Nat) ≤ ([wfEntry, wfEntry] : List Entry).length :=
  search_stops_after_short_page "q" 6 2
    [ApiResponse.ok [wfEntry, wfEntry], ApiResponse.ok [wfEntry]] 0
    [wfEntry, wfEntry] (by decide) rfl

/-! ## C9: every issued request's `limit` parameter -/

theorem fetchLoop_limit_inv (q : String) (maxP b : Nat) :
    ∀ (offs : List Nat) (resps : List ApiResponse) (acc : List PaperRecord)
      (req : PageRequest), req ∈ (fetchLoop q maxP b offs resps acc).1 →
      req.limit = min (b : Int) ((maxP : Int) - (req.accBefore : Int)) := by
  intro offs
  induction offs with
  | nil => intro resps acc req h; simp [fetchLoop] at h
  | cons o offs ih =>
    intro resps acc req h
    cases resps with
    | nil =>
      simp [fetchLoop] at h
      subst h; rfl
    | cons r rest =>
      cases r with
      | ok es0 =>
        cases es0 with
        | nil => simp [fetchLoop] at h; subst h; rfl
        | cons e es =>
          simp only [fetchLoop] at h
          by_cases hb2 : (e :: es).length < b
          · rw [if_pos hb2] at h
            simp at h
            subst h; rfl
          · rw [if_neg hb2] at h
            simp at h
            rcases h with h | h
            · subst h; rfl
            · exact ih rest _ req h
      | noData => simp [fetchLoop] at h; subst h; rfl
      | httpError c => simp [fetchLoop] at h; subst h; rfl
      | transportError => simp [fetchLoop] at h; subst h; rfl
      | jsonError => simp [fetchLoop] at h; subst h; rfl

/-- C9: every page request issued by `search_semantic_scholar` carries
`limit = min(batch_size, max_papers - len(papers))` computed at the moment of
the request (line 23); in particular the limit never exceeds `batch_size`
and never exceeds the number of records still needed to reach
`max_papers`. -/
theorem search_request_limit (q : String) (maxP b : Nat)
    (resps : List ApiResponse) (req : PageRequest)
    (h : req ∈ (search_semantic_scholar q maxP b resps).1) :
    req.limit = min (b : Int) ((maxP : Int) - (req.accBefore : Int)) ∧
    req.limit ≤ (b : Int) ∧
    req.limit ≤ (maxP : Int) - (req.accBefore : Int) := by
  have h1 := fetchLoop_limit_inv q maxP b (pyRange maxP b) resps [] req h
  exact ⟨h1, by rw [h1]; exact min_le_left _ _,
    by rw [h1]; exact min_le_right _ _⟩

theorem search_request_limit_witness :
    ∃ req : PageRequest,
      req ∈ (search_semantic_scholar "q" 10 10 [ApiResponse.ok tenEntries]).1 ∧
      req.limit = min (((10 : Nat)) : Int)
        ((((10 : Nat)) : Int) - (req.accBefore : Int)) :=
  ⟨⟨"q", 0, 10, 0⟩, by decide,
    (search_request_limit "q" 10 10 [ApiResponse.ok tenEntries]
      ⟨"q", 0, 10, 0⟩ (by decide)).1⟩

/-! ## C5: missing-field placeholders -/

/-- An entry with every optional key absent. -/
def emptyEntry : Entry :=
  { title := none, authors := none, abstract := none, year := none,
    url := none, references := none }

/-- C5: an entry lacking `abstract` yields `summary = "No abstract
available"`, one lacking `url` yields `pdf_url = "No URL available"`, one
lacking `year` yields `published = "Unknown"` (lines 43-47), so every field
of every record has a defined value. -/
theorem mkPaper_missing_fields (e : Entry) :
    (e.abstract = none → (mkPaper e).summary = "No abstract available") ∧
    (e.url = none → (mkPaper e).pdf_url = "No URL available") ∧
    (e.year = none → (mkPaper e).published = PyVal.pstr "Unknown") := by
  refine ⟨fun h => ?_, fun h => ?_, fun h => ?_⟩ <;> simp [mkPaper, h]

theorem mkPaper_missing_fields_witness :
    (mkPaper emptyEntry).summary = "No abstract available" ∧
    (mkPaper emptyEntry).pdf_url = "No URL available" ∧
    (mkPaper emptyEntry).published = PyVal.pstr "Unknown" :=
  ⟨(mkPaper_missing_fields emptyEntry).1 rfl,
    (mkPaper_missing_fields emptyEntry).2.1 rfl,
    (mkPaper_missing_fields emptyEntry).2.2 rfl⟩

/-! ## C4: the formatted references string -/

theorem digitChar_ne_semicolon : ∀ k, k < 10 → Nat.digitChar k ≠ ';' := by
  decide

theorem toDigitsCore_ne_semicolon :
    ∀ (fuel n : Nat) (ds : List Char), (∀ c ∈ ds, c ≠ ';') →
      ∀ c ∈ Nat.toDigitsCore 10 fuel n ds, c ≠ ';' := by
  intro fuel
  induction fuel with
  | zero => intro n ds hds c hc; exact hds c hc
  | succ fuel ih =>
    intro n ds hds c hc
    have hd : Nat.digitChar (n % 10) ≠ ';' :=
      digitChar_ne_semicolon _ (Nat.mod_lt n (by norm_num))
    simp only [Nat.toDigitsCore] at hc
    split at hc
    · rcases List.mem_cons.mp hc with hc | hc
      · rw [hc]; exact hd
      · exact hds c hc
    · refine ih (n / 10) _ ?_ c hc
      intro x hx
      rcases List.mem_cons.mp hx with hx | hx
      · rw [hx]; exact hd
      · exact hds x hx

theorem natRepr_ne_semicolon (n : Nat) : ∀ c ∈ (Nat.repr n).data, c ≠ ';' :=
  fun c hc => toDigitsCore_ne_semicolon (n + 1) n [] (by simp) c hc

theorem intRepr_ne_semicolon (n : Int) : ∀ c ∈ (Int.repr n).data, c ≠ ';' := by
  cases n with
  | ofNat m => exact natRepr_ne_semicolon m
  | negSucc m =>
    intro c hc
    simp only [Int.repr, String.data_append] at hc
    rcases List.mem_append.mp hc with hc | hc
    · simp at hc; rw [hc]; decide
    · exact natRepr_ne_semicolon _ c hc

theorem strJoin_ne_semicolon (sep : String) (hsep : ∀ c ∈ sep.data, c ≠ ';') :
    ∀ (l : List String), (∀ s ∈ l, ∀ c ∈ s.data, c ≠ ';') →
      ∀ c ∈ (strJoin sep l).data, c ≠ ';' := by
  intro l
  induction l with
  | nil => intro _ c hc; simp [strJoin] at hc
  | cons s rest ih =>
    intro hl c hc
    cases rest with
    | nil =>
      simp only [strJoin] at hc
      exact hl s (List.mem_cons_self _ _) c hc
    | cons s2 rest2 =>
      simp only [strJoin, String.data_append] at hc
      rcases List.mem_append.mp hc with hc | hc
      · rcases List.mem_append.mp hc with hc | hc
        · exact hl s (List.mem_cons_self _ _) c hc
        · exact hsep c hc
      · exact ih (fun x hx => hl x (List.mem_cons_of_mem _ hx)) c hc

/-- The inputs of one citation that flow into arbitrary text positions:
neither the (defaulted) title nor any author name contains a semicolon. -/
def RefSemiFree (r : Ref) : Prop :=
  (∀ c ∈ (r.title.getD "No title").data, c ≠ ';') ∧
  (∀ a ∈ r.authors.getD [], ∀ c ∈ a.name.data, c ≠ ';')

instance (r : Ref) : Decidable (RefSemiFree r) := by
  unfold RefSemiFree; infer_instance

theorem data_append_semi (s t : String) (hs : ∀ c ∈ s.data, c ≠ ';')
    (ht : ∀ c ∈ t.data, c ≠ ';') : ∀ c ∈ (s ++ t).data, c ≠ ';' := by
  intro c hc
  rw [String.data_append] at hc
  rcases List.mem_append.mp hc with h | h
  · exact hs c h
  · exact ht c h

theorem formatRef_ne_semicolon (idx : Nat) (r : Ref) (hr : RefSemiFree r) :
    ∀ c ∈ (formatRef idx r).data, c ≠ ';' := by
  unfold formatRef
  refine data_append_semi _ _ ?_ (by decide)
  refine data_append_semi _ _ ?_ ?_
  · refine data_append_semi _ _ ?_ (by decide)
    refine data_append_semi _ _ ?_ hr.1
    refine data_append_semi _ _ ?_ (by decide)
    refine data_append_semi _ _ ?_ ?_
    · refine data_append_semi _ _ ?_ (by decide)
      exact data_append_semi _ _ (by decide) (natRepr_ne_semicolon idx)
    · unfold refAuthorsStr
      refine strJoin_ne_semicolon ", " (by decide) _ ?_
      intro s hs
      rcases List.mem_map.mp hs with ⟨a, ha, rfl⟩
      exact hr.2 a ha
  · intro c hc
    unfold refYearStr at hc
    cases hy : r.year with
    | some n =>
      rw [hy] at hc
      exact intRepr_ne_semicolon n c hc
    | none =>
      rw [hy] at hc
      exact (by decide : ∀ x ∈ ("Unknown" : String).data, x ≠ ';') c hc

theorem refFragments_length : ∀ (rs : List Ref) (i : Nat),
    (refFragments i rs).length = rs.length := by
  intro rs
  induction rs with
  | nil => intro i; rfl
  | cons r rs ih => intro i; simp [refFragments, ih]

theorem refFragments_get? : ∀ (rs : List Ref) (i k : Nat),
    (refFragments i rs).get? k =
      (rs.get? k).map (fun r => formatRef (i + k) r) := by
  intro rs
  induction rs with
  | nil => intro i k; simp [refFragments]
  | cons r rs ih =>
    intro i k
    cases k with
    | zero => simp [refFragments]
    | succ k2 =>
      simp only [refFragments, List.get?]
      rw [ih (i + 1) k2]
      have he : i + 1 + k2 = i + (k2 + 1) := by omega
      rw [he]

theorem refFragments_semi : ∀ (rs : List Ref), (∀ r ∈ rs, RefSemiFree r) →
    ∀ (i : Nat), ∀ s ∈ refFragments i rs, ∀ c ∈ s.data, c ≠ ';' := by
  intro rs
  induction rs with
  | nil => intro _ i s hs; simp [refFragments] at hs
  | cons r rs ih =>
    intro h i s hs
    simp only [refFragments] at hs
    rcases List.mem_cons.mp hs with hs | hs
    · rw [hs]; exact formatRef_ne_semicolon i r (h r (List.mem_cons_self _ _))
    · exact ih (fun r2 h2 => h r2 (List.mem_cons_of_mem _ h2)) (i + 1) s hs

/-- C4 (counterexample): a reference whose title contains a semicolon makes
its citation fragment contain a semicolon.  For `badRefEntry` (one reference,
title `a;b`, no authors, year 2) the references field — a single fragment —
is `[1] , "a;b," 2.`, which is not semicolon-free. -/
theorem references_semicolon_cex :
    (mkPaper badRefEntry).references = "[1] , \"a;b,\" 2." ∧
    ';' ∈ ((mkPaper badRefEntry).references).data := by
  constructor <;> decide

/-- C4 (amended): for a paper entry whose reference list has length `N > 0`
the references field is the space-join of exactly `N` citation fragments, the
fragment at position `k` being `[k+1] authors, "title," year.` for the
`k`-th reference (1-based indices, original order); the fragments are
semicolon-free provided no reference title or author name contains a
semicolon (index and year renderings never do).  When the reference list is
empty or absent the field is the sentinel `"No references available"`. -/
theorem references_field (e : Entry) :
    (∀ refs : List Ref, e.references = some refs → refs ≠ [] →
      (mkPaper e).references = strJoin " " (referenceList refs) ∧
      (referenceList refs).length = refs.length ∧
      (∀ k, k < refs.length →
        (referenceList refs).get? k =
          (refs.get? k).map (fun r => formatRef (k + 1) r)) ∧
      ((∀ r ∈ refs, RefSemiFree r) →
        ∀ s ∈ referenceList refs, ∀ c ∈ s.data, c ≠ ';')) ∧
    ((e.references = none ∨ e.references = some []) →
      (mkPaper e).references = "No references available") := by
  constructor
  · intro refs he hne
    refine ⟨?_, refFragments_length refs 1, ?_, ?_⟩
    · cases hrl : referenceList refs with
      | nil =>
        exfalso
        have hlen := refFragments_length refs 1
        rw [show refFragments 1 refs = referenceList refs from rfl, hrl] at hlen
        exact hne (List.length_eq_zero.mp hlen.symm)
      | cons f fs =>
        simp only [mkPaper, he, Option.getD_some]
        rw [hrl]
    · intro k _
      have h := refFragments_get? refs 1 k
      have he2 : 1 + k = k + 1 := by omega
      rw [he2] at h
      exact h
    · intro hsf s hs
      exact refFragments_semi refs hsf 1 s hs
  · intro h
    rcases h with h | h <;>
      simp [mkPaper, h, referenceList, refFragments]

/-- The reference list used by the C4 witness. -/
def twoRefs : List Ref :=
  [{ title := some "R1", authors := some [⟨"X"⟩], year := some 2001 },
    { title := none, authors := none, year := none }]

/-- An entry carrying `twoRefs`. -/
def twoRefEntry : Entry :=
  { title := some "T", authors := some [], abstract := none, year := none,
    url := none, references := some twoRefs }

theorem references_field_witness :
    (mkPaper twoRefEntry).references = strJoin " " (referenceList twoRefs) ∧
    (referenceList twoRefs).length = twoRefs.length :=
  ⟨((references_field twoRefEntry).1 twoRefs rfl (by decide)).1,
    ((references_field twoRefEntry).1 twoRefs rfl (by decide)).2.1⟩

/-! ## C6: the CSV reader inverts the CSV writer -/

theorem escapeQuotes_length (d : List Char) :
    d.length ≤ (escapeQuotes d).length := by
  induction d with
  | nil => simp [escapeQuotes]
  | cons c rest ih =>
    simp only [escapeQuotes]
    split <;> simp <;> omega

theorem parseQuotedFuel_escape :
    ∀ (d : List Char) (fuel : Nat) (after : List Char),
      after.head? ≠ some '"' → d.length < fuel →
      parseQuotedFuel fuel (escapeQuotes d ++ '"' :: after) = (d, after) := by
  intro d
  induction d with
  | nil =>
    intro fuel after h hf
    obtain ⟨f, rfl⟩ : ∃ f, fuel = f + 1 := ⟨fuel - 1, by omega⟩
    simp only [escapeQuotes, List.nil_append, parseQuotedFuel, if_true]
    rw [if_neg h]
  | cons x d ih =>
    intro fuel after h hf
    obtain ⟨f, rfl⟩ : ∃ f, fuel = f + 1 := ⟨fuel - 1, by omega⟩
    have hdf : d.length < f := by
      simp only [List.length_cons] at hf
      omega
    by_cases hx : x = '"'
    · subst hx
      simp only [escapeQuotes, if_true]
      simp only [List.cons_append, parseQuotedFuel, if_true]
      simp only [List.head?_cons, List.tail_cons, if_true]
      rw [ih f after h hdf]
    · simp only [escapeQuotes]
      rw [if_neg hx]
      simp only [List.cons_append, parseQuotedFuel]
      rw [if_neg hx, ih f after h hdf]

theorem parseUnquoted_plain :
    ∀ (d after : List Char), d.any isCsvSpecial = false →
      (after.head? = some ',' ∨ after.head? = some '\r') →
      parseUnquoted (d ++ after) = (d, after) := by
  intro d
  induction d with
  | nil =>
    intro after _ ha
    cases after with
    | nil => simp at ha
    | cons a t =>
      have hstop : a = ',' ∨ a = '\r' ∨ a = '\n' := by
        rcases ha with ha | ha <;> simp at ha <;> simp [ha]
      simp only [List.nil_append, parseUnquoted]
      rw [if_pos hstop]
  | cons x d ih =>
    intro after h ha
    have hx : isCsvSpecial x = false ∧ d.any isCsvSpecial = false := by
      simpa [List.any_cons, Bool.or_eq_false_iff] using h
    have hxs : ¬(x = ',' ∨ x = '\r' ∨ x = '\n') := by
      have := hx.1
      simp only [isCsvSpecial, Bool.or_eq_false_iff, beq_eq_false_iff_ne] at this
      tauto
    simp only [List.cons_append, parseUnquoted]
    rw [if_neg hxs]
    have hd := ih after hx.2 ha
    simp only [List.append_eq]
    rw [hd]

theorem parseCellAt_encode (d after : List Char)
    (ha : after.head? = some ',' ∨ after.head? = some '\r') :
    parseCellAt (encodeCell d ++ after) = (d, after) := by
  have hane : after.head? ≠ some '"' := by
    rcases ha with ha | ha <;> rw [ha] <;> decide
  by_cases hq : d.any isCsvSpecial
  · have he : encodeCell d ++ after = '"' :: (escapeQuotes d ++ '"' :: after) := by
      simp [encodeCell, hq, List.append_assoc]
    rw [he]
    simp only [parseCellAt, if_true]
    apply parseQuotedFuel_escape d _ after hane
    have h1 := escapeQuotes_length d
    simp only [List.length_append, List.length_cons]
    omega
  · have hqf : d.any isCsvSpecial = false := by
      revert hq
      cases d.any isCsvSpecial <;> simp
    have he : encodeCell d ++ after = d ++ after := by simp [encodeCell, hqf]
    rw [he]
    cases d with
    | nil =>
      cases after with
      | nil => simp at ha
      | cons a t =>
        have hane2 : a ≠ '"' := by
          rcases ha with ha | ha <;> (simp at ha; subst ha; decide)
        simp only [List.nil_append, parseCellAt]
        rw [if_neg hane2]
        exact parseUnquoted_plain [] (a :: t) rfl ha
    | cons x d2 =>
      have hx : isCsvSpecial x = false := by
        simp only [List.any_cons, Bool.or_eq_false_iff] at hqf
        exact hqf.1
      have hxq : x ≠ '"' := by
        simp only [isCsvSpecial, Bool.or_eq_false_iff, beq_eq_false_iff_ne] at hx
        tauto
      simp only [List.cons_append, parseCellAt]
      rw [if_neg hxq]
      exact parseUnquoted_plain (x :: d2) after hqf ha

theorem head?_cons_ne (a b : Char) (h : a ≠ b) (t : List Char) :
    (a :: t).head? ≠ some b := by
  simp [h]

theorem parseRowFuel_encodeRow :
    ∀ (cells : List (List Char)) (rest : List Char) (fuel : Nat),
      cells ≠ [] → cells.length ≤ fuel →
      parseRowFuel fuel (encodeRow cells ++ rest) = (cells, rest) := by
  intro cells
  induction cells with
  | nil => intro _ _ h _; exact absurd rfl h
  | cons c cs ih =>
    intro rest fuel _ hf
    obtain ⟨f, rfl⟩ : ∃ f, fuel = f + 1 := ⟨fuel - 1, by simp at hf; omega⟩
    cases cs with
    | nil =>
      have he : encodeRow [c] ++ rest = encodeCell c ++ ('\r' :: '\n' :: rest) := by
        simp [encodeRow, joinEnc, List.append_assoc]
      rw [he]
      simp only [parseRowFuel,
        parseCellAt_encode c ('\r' :: '\n' :: rest) (Or.inr rfl),
        List.head?_cons, List.tail_cons]
      rw [if_neg (by decide), if_pos (by decide)]
    | cons c2 cs2 =>
      have he : encodeRow (c :: c2 :: cs2) ++ rest
          = encodeCell c ++ (',' :: (encodeRow (c2 :: cs2) ++ rest)) := by
        simp [encodeRow, joinEnc, List.append_assoc]
      rw [he]
      simp only [parseRowFuel,
        parseCellAt_encode c (',' :: (encodeRow (c2 :: cs2) ++ rest)) (Or.inl rfl),
        List.head?_cons, List.tail_cons]
      rw [if_pos (by decide)]
      rw [ih rest f (by simp) (by simp at hf ⊢; omega)]

theorem joinEnc_length :
    ∀ (cells : List (List Char)), cells.length ≤ (joinEnc cells).length + 1 := by
  intro cells
  induction cells with
  | nil => simp
  | cons c cs ih =>
    cases cs with
    | nil => simp [joinEnc]
    | cons c2 cs2 =>
      simp only [joinEnc, List.length_cons, List.length_append] at ih ⊢
      omega

theorem cells_length_le_input (cells : List (List Char)) (t : List Char) :
    cells.length ≤ (encodeRow cells ++ t).length := by
  have h := joinEnc_length cells
  simp only [encodeRow, List.length_append, List.length_cons, List.length_nil]
  omega

theorem rows_length_le :
    ∀ (rs : List (List (List Char))), rs.length ≤ (encodeRows rs).length := by
  intro rs
  induction rs with
  | nil => simp [encodeRows]
  | cons r rs ih =>
    simp only [encodeRows, encodeRow, List.length_cons, List.length_append,
      List.length_nil] at ih ⊢
    omega

theorem parseCsvFuel_encodeRows :
    ∀ (rs : List (List (List Char))) (fuel : Nat),
      rs.length ≤ fuel → (∀ r ∈ rs, r ≠ []) →
      parseCsvFuel fuel (encodeRows rs) = rs := by
  intro rs
  induction rs with
  | nil =>
    intro fuel _ _
    cases fuel <;> simp [parseCsvFuel, encodeRows]
  | cons r rs ih =>
    intro fuel hf hne
    obtain ⟨f, rfl⟩ : ∃ f, fuel = f + 1 := ⟨fuel - 1, by simp at hf; omega⟩
    have hnn : encodeRow r ++ encodeRows rs ≠ [] := by
      apply List.length_pos.mp
      simp only [encodeRow, List.length_append, List.length_cons, List.length_nil]
      omega
    simp only [encodeRows, parseCsvFuel]
    rw [if_neg hnn]
    rw [parseRowFuel_encodeRow r (encodeRows rs) _
      (hne r (List.mem_cons_self _ _)) (cells_length_le_input r _)]
    rw [ih f (by simp at hf; omega) (fun x hx => hne x (List.mem_cons_of_mem _ hx))]

theorem parseCsv_csvContent (papers : List PaperRecord) :
    parseCsv (csvContent papers) = headerCells :: papers.map recordCells := by
  unfold parseCsv csvContent
  apply parseCsvFuel_encodeRows
  · exact rows_length_le (headerCells :: papers.map recordCells)
  · intro r hr
    rcases List.mem_cons.mp hr with h | h
    · rw [h]; simp [headerCells]
    · rcases List.mem_map.mp h with ⟨p, _, rfl⟩
      simp [recordCells]

/-- C6: writing any list of `K` records with `save_papers_to_file` (on a
filesystem where nothing fails) and re-reading the produced CSV yields the
fixed header row followed by exactly `K` data rows in input order; each row's
`Title`, `Published` and `PDF URL` cells equal the record's fields (with
`Published` through `str()`), and the `Authors` cell is the author list
joined with `", "`. -/
theorem save_roundtrip (papers : List PaperRecord) (folder filename : String)
    (env : FsEnv) (h1 : env.makedirsFails = false) (h2 : env.openFails = false)
    (h3 : env.writeFails = false) :
    ∃ res : SaveOutcome,
      save_papers_to_file papers folder filename env = Except.ok res ∧
      res.fileContent = some (csvContent papers) ∧
      parseCsv (csvContent papers) =
        headerCells :: papers.map (fun p =>
          [p.title.data, (strJoin ", " p.authors).data,
            (PyVal.render p.published).data, p.summary.data, p.pdf_url.data,
            p.references.data]) := by
  refine ⟨⟨true, some (csvContent papers), true⟩, ?_, rfl, ?_⟩
  · simp [save_papers_to_file, h1, h2, h3]
  · exact parseCsv_csvContent papers

/-- A record whose fields exercise the quoting paths of the writer: commas,
a quote char, a newline, an empty cell, a negative year. -/
def nastyRecord : PaperRecord :=
  { title := "A, \"B\"\nrest", summary := "s", authors := ["X, Y", "Z"],
    published := PyVal.pint (-3), pdf_url := "", references := "r1; r2" }

theorem save_roundtrip_witness :
    ∃ res : SaveOutcome,
      save_papers_to_file [nastyRecord] "output_papers"
        "semantic_scholar_papers.csv" fsOk = Except.ok res ∧
      res.fileContent = some (csvContent [nastyRecord]) ∧
      parseCsv (csvContent [nastyRecord]) =
        headerCells :: [nastyRecord].map (fun p =>
          [p.title.data, (strJoin ", " p.authors).data,
            (PyVal.render p.published).data, p.summary.data, p.pdf_url.data,
            p.references.data]) :=
  save_roundtrip [nastyRecord] "output_papers" "semantic_scholar_papers.csv"
    fsOk rfl rfl rfl

/-! ## C7: exceptions at the export boundary -/

/-- C7 (counterexample): folder creation happens at line 112, *outside* the
`try` block that starts at line 117.  When `os.makedirs` fails (for instance
because the folder path names an existing regular file), the exception
propagates to the caller of `save_papers_to_file`, so the claim that no
failure of the export ever propagates is false. -/
theorem save_makedirs_raises_cex :
    save_papers_to_file [] "output_papers" "semantic_scholar_papers.csv"
      ⟨true, false, false⟩ = Except.error PyExc.osError := rfl

/-- C7 (amended): provided folder creation succeeds, `save_papers_to_file`
never propagates an exception: any failure during file open or writing is
caught by the `try`/`except` (lines 117, 133-134) and reported as a
non-fatal failure, and a clean run reports success. -/
theorem save_no_raise (papers : List PaperRecord) (folder filename : String)
    (env : FsEnv) (h : env.makedirsFails = false) :
    ∃ res : SaveOutcome,
      save_papers_to_file papers folder filename env = Except.ok res ∧
      ((env.openFails || env.writeFails) = true → res.reportedSuccess = false) ∧
      ((env.openFails || env.writeFails) = false → res.reportedSuccess = true) := by
  by_cases h2 : (env.openFails || env.writeFails) = true
  · refine ⟨⟨true, none, false⟩, ?_, fun _ => rfl, fun hc => ?_⟩
    · unfold save_papers_to_file
      rw [h, if_neg (by simp), if_pos h2]
    · rw [hc] at h2
      exact Bool.noConfusion h2
  · have h2f : (env.openFails || env.writeFails) = false := by
      cases hov : env.openFails || env.writeFails
      · rfl
      · exact absurd hov h2
    refine ⟨⟨true, some (csvContent papers), true⟩, ?_, fun hc => ?_, fun _ => rfl⟩
    · unfold save_papers_to_file
      rw [h, if_neg (by simp), if_neg h2]
    · rw [h2f] at hc
      exact Bool.noConfusion hc

theorem save_no_raise_witness :
    ∃ res : SaveOutcome,
      save_papers_to_file [] "output_papers" "semantic_scholar_papers.csv"
        ⟨false, true, false⟩ = Except.ok res ∧
      ((true || false) = true → res.reportedSuccess = false) ∧
      ((true || false) = false → res.reportedSuccess = true) :=
  save_no_raise [] "output_papers" "semantic_scholar_papers.csv"
    ⟨false, true, false⟩ rfl

/-! ## C8: the end-to-end scenario -/

/-- C8: with `max_papers = 10`, `batch_size = 10` and a stub API returning
one page of exactly ten well-formed entries, `search_semantic_scholar`
issues exactly one page request (`range(0, 10, 10)` has a single offset) and
returns exactly ten records, and exporting them succeeds with a CSV file of
exactly eleven `"\r\n"`-terminated lines: one header plus ten data rows. -/
theorem end_to_end_ten :
    ((search_semantic_scholar "machine learning" 10 10
        [ApiResponse.ok tenEntries]).1).length = 1 ∧
    ((search_semantic_scholar "machine learning" 10 10
        [ApiResponse.ok tenEntries]).2).length = 10 ∧
    save_papers_to_file
        (search_semantic_scholar "machine learning" 10 10
          [ApiResponse.ok tenEntries]).2
        "output_papers" "semantic_scholar_papers.csv" fsOk =
      Except.ok ⟨true, some (csvContent
        (search_semantic_scholar "machine learning" 10 10
          [ApiResponse.ok tenEntries]).2), true⟩ ∧
    ((csvContent (search_semantic_scholar "machine learning" 10 10
        [ApiResponse.ok tenEntries]).2).count '\n') = 11 := by
  refine ⟨by decide, by decide, rfl, by decide⟩

/-! ## C10: exporting an empty list -/

/-- C10: saving an empty record list (with a healthy filesystem) still
creates the destination folder, writes exactly the one-line header row, and
reports success. -/
theorem save_empty_header_only :
    save_papers_to_file [] "output_papers" "semantic_scholar_papers.csv" fsOk =
      Except.ok ⟨true, some (csvContent []), true⟩ ∧
    csvContent [] = "Title,Authors,Published,Summary,PDF URL,References\r\n".data ∧
    ((csvContent []).count '\n') = 1 := by
  refine ⟨rfl, by decide, by decide⟩

end SemScholar
